import Mathlib

/-
Verification of the multi-page extraction and result-merging pipeline of
the local_data_extractor repository (src/Ollama/processor.py).

The Python source is shallowly embedded below:
  - Python dicts become association lists (`Dict`) with insert-or-update
    semantics (`dinsert`) and `get`-style lookup (`dget`);
  - JSON field payloads become `FieldData` (the structured form
    \x7bvalue, confidence\x7d versus a bare legacy scalar / null);
  - the decoded model-response envelope becomes `ExtractionResults` /
    `ResultEnvelope`, with absent keys modelled by the default values the
    Python code supplies at each `.get` site (the only key whose presence
    is itself tested, overall_confidence, is modelled as an `Option`);
  - machine integers are `Int`; the Python expression int(sum/len) on a
    float quotient is `Int.tdiv` (truncation toward zero);
  - the HTTP call to the model server and the json.loads decoder are
    boundary capabilities: the orchestrator is parameterised over a call
    function (exceptions become `Except.error`) and a decode function.
-/

set_option maxRecDepth 10000

namespace Extractor

/-- Association list standing for a Python dict with string keys. -/
abbrev Dict (α : Type) := List (String × α)

/-- Python dict lookup: `d.get(k)` returning `None` when the key is absent. -/
def dget {α : Type} : Dict α → String → Option α
  | [], _ => none
  | (k', v) :: rest, k => if k' = k then some v else dget rest k

/-- Python dict assignment `d[k] = v`: update in place when present, append otherwise. -/
def dinsert {α : Type} : Dict α → String → α → Dict α
  | [], k, v => [(k, v)]
  | (k', v') :: rest, k, v =>
      if k' = k then (k', v) :: rest else (k', v') :: dinsert rest k v

/-- Python membership test `k in d`. -/
def dmem {α : Type} (k : String) (d : Dict α) : Bool :=
  (dget d k).isSome

/-- One field entry of the decoded JSON "data" object: either the structured
form (a JSON object containing a "value" key, with optional "confidence"),
or the bare legacy form (a scalar or null).  Values are modelled as optional
strings per the documented response envelope (value: extracted text or null). -/
inductive FieldData where
  | scored (value : Option String) (confidence : Option Int)
  | legacy (value : Option String)
deriving DecidableEq

/-- The decoded "extraction_results" JSON object.  Keys that the Python code
reads via .get with a default are modelled by fields holding that default
when absent; overall_confidence, whose presence is tested with `in`, is an
`Option`. -/
structure ExtractionResults where
  overall_confidence : Option Int := none
  confidence_score : Int := 0
  reasoning : String := ""
  data : Dict FieldData := []
  additional_request_result : Option String := none
deriving DecidableEq

/-- The `\x7b\x7d` default used at `page_result.get("extraction_results", \x7b\x7d)`. -/
def emptyER : ExtractionResults := {}

/-- A decoded top-level model response: the "extraction_results" key when
present, and otherwise the bare top-level object (used by the wrapping
fallback at processor.py lines 305-314). -/
structure ResultEnvelope where
  extraction_results : Option ExtractionResults := none
  bareData : Dict FieldData := []
deriving DecidableEq

/-- processor.py lines 137-143: resolve one field of one page to a
(value, confidence) pair — the structured form carries its own confidence
(default 0 when the "confidence" key is absent), the legacy form and a
missing field fall back to the page-level confidence_score. -/
def resolveField (er : ExtractionResults) (k : String) : Option String × Int :=
  match dget er.data k with
  | some (.scored v c) => (v, c.getD 0)
  | some (.legacy v) => (v, er.confidence_score)
  | none => (none, er.confidence_score)

/-- Python str.lower, applied characterwise. -/
def pyLower (s : String) : String := String.mk (s.toList.map Char.toLower)

/-- processor.py line 146: the adoption guard
`value and value != "null" and str(value).lower() not in ["not found", "none"]`.
Note the comparison with "null" is case-sensitive while the list membership
test is on the lowercased value. -/
def isAdoptable : Option String → Bool
  | none => false
  | some s => s ≠ "" && s ≠ "null" && !([ "not found", "none" ].contains (pyLower s))

/-- The loop state of merge_page_results (merged_data, field_confidences,
all_reasonings). -/
structure MergeAcc where
  merged_data : Dict (Option String) := []
  field_confidences : Dict Int := []
  all_reasonings : List String := []
deriving DecidableEq

/-- processor.py lines 133-150: the body of the inner per-field loop. -/
def mergeField (er : ExtractionResults) (acc : MergeAcc) (k : String) : MergeAcc :=
  let vc := resolveField er k
  if isAdoptable vc.1 then
    if !(dmem k acc.merged_data) || vc.2 > (dget acc.field_confidences k).getD 0 then
      { acc with
          merged_data := dinsert acc.merged_data k vc.1,
          field_confidences := dinsert acc.field_confidences k vc.2 }
    else acc
  else acc

/-- processor.py lines 124-150: the body of the outer per-page loop
(collect the reasoning string, then scan every schema field). -/
def mergePage (schema : List String) (acc : MergeAcc) (page : ResultEnvelope) : MergeAcc :=
  let er := page.extraction_results.getD emptyER
  let acc :=
    if er.reasoning ≠ "" then
      { acc with all_reasonings := acc.all_reasonings ++ [er.reasoning] }
    else acc
  schema.foldl (mergeField er) acc

/-- The whole double loop of merge_page_results, starting from empty dicts. -/
def mergeLoop (pages : List ResultEnvelope) (schema : List String) : MergeAcc :=
  pages.foldl (mergePage schema) {}

/-- processor.py lines 152-155: fill in missing fields with null. -/
def fillMissing (schema : List String) (d : Dict (Option String)) : Dict (Option String) :=
  schema.foldl (fun d k => if dmem k d then d else dinsert d k none) d

/-- The final "data" mapping of the merged result (adopted values plus
explicit nulls for the remaining schema fields). -/
def mergedData (pages : List ResultEnvelope) (schema : List String) : Dict (Option String) :=
  fillMissing schema (mergeLoop pages schema).merged_data

/-- Python int(sum/len): exact quotient truncated toward zero. -/
def pyIntDiv (a b : Int) : Int := Int.tdiv a b

/-- processor.py lines 114-170: merge_page_results.  The reasoning strings
are deduplicated with Python set(); set iteration order is modelled as
first-occurrence order.  On an empty input list the Python code would raise
IndexError at page_extractions[0]; the orchestrator only calls it with a
non-empty list, and the model returns null for the additional request there. -/
def merge_page_results (page_extractions : List ResultEnvelope) (fields_to_extract : List String) :
    ExtractionResults :=
  let acc := mergeLoop page_extractions fields_to_extract
  let merged := fillMissing fields_to_extract acc.merged_data
  let confs := acc.field_confidences.map (fun p => p.2)
  let avg : Int := if acc.field_confidences = [] then 0 else pyIntDiv confs.sum confs.length
  let combined :=
    if acc.all_reasonings = [] then "Multi-page extraction"
    else String.intercalate " | " acc.all_reasonings.eraseDups
  { overall_confidence := none,
    confidence_score := avg,
    reasoning := "Merged from " ++ toString page_extractions.length ++ " pages: " ++ combined,
    data := merged.map (fun p => (p.1, FieldData.legacy p.2)),
    additional_request_result :=
      match page_extractions.head? with
      | some p => (p.extraction_results.getD emptyER).additional_request_result
      | none => none }

/-- processor.py lines 325-340: resolve one schema field of the decoded
response to its processed value and its contribution to field_confidences.
The structured form yields its value and confidence (default 0 when the
"confidence" key is absent); the legacy form and a missing field yield the
bare value (null when missing) with the default medium confidence 50. -/
def processField (data : Dict FieldData) (k : String) : Option String × Int :=
  match dget data k with
  | some (.scored v c) => (v, c.getD 0)
  | some (.legacy v) => (v, 50)
  | none => (none, 50)

/-- The list field_confidences built by the loop at processor.py
lines 322-340 (one entry per schema field). -/
def resolvedFieldConfidences (data : Dict FieldData) (schema : List String) : List Int :=
  schema.map (fun k => (processField data k).2)

/-- processor.py lines 316-351: normalise the decoded extraction_results —
rebuild "data" as field to bare value, compute the truncated mean of the
per-field confidences, set overall_confidence to that mean only when the
response did not already carry one, and copy the resulting value into
confidence_score. -/
def postprocess (er : ExtractionResults) (schema : List String) : ExtractionResults :=
  let processed_data : Dict FieldData :=
    schema.map (fun k => (k, FieldData.legacy (processField er.data k).1))
  let field_confidences := resolvedFieldConfidences er.data schema
  let overall_confidence : Int :=
    if field_confidences = [] then 0
    else pyIntDiv field_confidences.sum field_confidences.length
  let oc := er.overall_confidence.getD overall_confidence
  { er with
      overall_confidence := some oc,
      confidence_score := oc,
      data := processed_data }

/-- processor.py lines 292-295: the fallback regex search
re.search(r"\x7b.*\x7d", response, re.DOTALL) — leftmost-greedy, so the
match (when any) spans from the first opening brace that has a closing
brace after it, up to the last closing brace of the whole string. -/
def braceSpan (s : String) : Option String :=
  let cs := s.toList
  match cs.findIdx? (fun c => c = '{') with
  | none => none
  | some i =>
    match cs.reverse.findIdx? (fun c => c = '}') with
    | none => none
    | some rj =>
      let j := cs.length - 1 - rj
      if i < j then some (String.mk ((cs.drop i).take (j - i + 1))) else none

/-- processor.py lines 285-302: decode the raw response, retrying on the
brace-delimited span when direct decoding fails; both failure paths raise
an Exception carrying the first 200 characters of the raw text.  The
decoder (json.loads) is a boundary capability passed as `dec`. -/
def parseResponse {α : Type} (dec : String → Option α) (response : String) :
    Except String α :=
  match dec response with
  | some r => .ok r
  | none =>
    match braceSpan response with
    | some sub =>
      match dec sub with
      | some r => .ok r
      | none => .error ("Could not parse JSON response. Raw: " ++ response.take 200)
    | none => .error ("No JSON found in response. Raw: " ++ response.take 200)

/-- The document handed to the orchestrator: a single image, or the list of
page images of a PDF. -/
inductive DocumentContent where
  | image (data : String)
  | pdf (pages : List String)
deriving DecidableEq

/-- processor.py lines 260-275: the per-page loop of the multi-page branch.
A page whose model call raises, or whose response json.loads fails to
decode, is logged and skipped; the successfully decoded pages are kept in
order. -/
def collectPageExtractions (call : String → Except String String)
    (dec : String → Option ResultEnvelope) (pages : List String) :
    List ResultEnvelope :=
  pages.filterMap (fun img =>
    match call img with
    | .ok raw => dec raw
    | .error _ => none)

/-- processor.py lines 241-353: the body of the top-level try block.
`call` models call_ollama_vision on one image (exceptions become
Except.error), `dec` models json.loads of a response.  In the multi-page
branch the merged result is serialised with json.dumps and immediately
re-decoded with json.loads; that round trip is the identity and is elided.
The validation step (lines 304-314) wraps a response that lacks the
"extraction_results" key, and the result is then normalised by postprocess. -/
def tryBody (call : String → Except String String)
    (dec : String → Option ResultEnvelope)
    (doc : DocumentContent) (schema : List String) :
    Except String ExtractionResults :=
  let phase1 : Except String ResultEnvelope :=
    match doc with
    | .image d => (call d).bind (fun response => parseResponse dec response)
    | .pdf [p] => (call p).bind (fun response => parseResponse dec response)
    | .pdf pages =>
      let page_extractions := collectPageExtractions call dec pages
      if page_extractions = [] then
        .error "Failed to process any page of the document"
      else
        .ok { extraction_results := some (merge_page_results page_extractions schema),
              bareData := [] }
  phase1.map (fun result =>
    let er :=
      match result.extraction_results with
      | some er => er
      | none =>
        { overall_confidence := some 0,
          confidence_score := 0,
          reasoning := "Response format was unexpected",
          data := result.bareData,
          additional_request_result := none }
    postprocess er schema)

/-- The value returned by extract_structured_data_with_ollama: an optional
top-level "error" key plus the extraction_results object (absent only for
the input-validation failure). -/
structure ExtractOut where
  error : Option String := none
  extraction_results : Option ExtractionResults := none
deriving DecidableEq

/-- The degraded record built by the top-level exception handler at
processor.py lines 359-367: every schema field null, confidence 0,
reasoning carrying the error message. -/
def degradedER (schema : List String) (e : String) : ExtractionResults :=
  { overall_confidence := none,
    confidence_score := 0,
    reasoning := "Error: " ++ e,
    data := schema.map (fun k => (k, FieldData.legacy none)),
    additional_request_result := none }

/-- processor.py lines 173-367: extract_structured_data_with_ollama.
Input validation first (an empty schema is falsy in Python and rejected);
then the try body; any exception from the body is caught and converted to
an error object that also carries the degraded record. -/
def extract_structured_data_with_ollama (call : String → Except String String)
    (dec : String → Option ResultEnvelope)
    (doc : DocumentContent) (schema : List String) : ExtractOut :=
  if schema = [] then
    { error := some "fields_to_extract is required and must be a dictionary \x7bfield: description\x7d",
      extraction_results := none }
  else
    match tryBody call dec doc schema with
    | .ok er => { error := none, extraction_results := some er }
    | .error e =>
      { error := some ("Error calling Ollama: " ++ e),
        extraction_results := some (degradedER schema e) }

/-- A JSON value (the fragment relevant here: null, booleans, integer
numbers, strings with only the quote and backslash escapes, arrays,
objects). -/
inductive JsonVal where
  | null
  | boolean (b : Bool)
  | num (n : Int)
  | str (s : String)
  | arr (xs : List JsonVal)
  | obj (fields : List (String × JsonVal))

/-- Skip JSON whitespace. -/
def skipWs : List Char → List Char
  | c :: cs => if c = ' ' ∨ c = '\n' ∨ c = '\t' ∨ c = '\r' then skipWs cs else c :: cs
  | [] => []

/-- Parse the remainder of a JSON string literal (after the opening quote),
returning its characters and the input left after the closing quote. -/
def parseStrChars : List Char → Option (List Char × List Char)
  | [] => none
  | c :: r =>
    if c = '"' then some ([], r)
    else if c = '\\' then
      match r with
      | [] => none
      | e :: r2 =>
        if e = '"' ∨ e = '\\' then (parseStrChars r2).map (fun p => (e :: p.1, p.2))
        else none
    else (parseStrChars r).map (fun p => (c :: p.1, p.2))

/-- Split a leading run of decimal digits from the input. -/
def spanDigits : List Char → List Char × List Char
  | [] => ([], [])
  | c :: r =>
    if c.isDigit then
      let p := spanDigits r
      (c :: p.1, p.2)
    else ([], c :: r)

/-- Decimal digits to a natural number. -/
def digitsToNat (ds : List Char) : Nat :=
  ds.foldl (fun n c => n * 10 + (c.toNat - 48)) 0

/-- Parse a JSON integer literal. -/
def parseNum (cs : List Char) : Option (JsonVal × List Char) :=
  match cs with
  | '-' :: r =>
    match spanDigits r with
    | ([], _) => none
    | (ds, rest) => some (.num (-(digitsToNat ds : Int)), rest)
  | _ =>
    match spanDigits cs with
    | ([], _) => none
    | (ds, rest) => some (.num (digitsToNat ds), rest)

mutual

/-- Modelled from the spec: the strict JSON decoder json.loads used by the
Extraction Parser (an external library, not part of this repository).
Parses one JSON value from the input, fuel-bounded. -/
def parseJsonVal (fuel : Nat) (cs : List Char) : Option (JsonVal × List Char) :=
  match fuel with
  | 0 => none
  | fuel + 1 =>
    match skipWs cs with
    | [] => none
    | c :: rest =>
      if c = 'n' then
        match rest with
        | 'u' :: 'l' :: 'l' :: r => some (.null, r)
        | _ => none
      else if c = 't' then
        match rest with
        | 'r' :: 'u' :: 'e' :: r => some (.boolean true, r)
        | _ => none
      else if c = 'f' then
        match rest with
        | 'a' :: 'l' :: 's' :: 'e' :: r => some (.boolean false, r)
        | _ => none
      else if c = '"' then
        (parseStrChars rest).map (fun p => (.str (String.mk p.1), p.2))
      else if c = '-' ∨ c.isDigit then parseNum (c :: rest)
      else if c = '{' then
        match skipWs rest with
        | '}' :: r => some (.obj [], r)
        | rest2 => (parseMembers fuel rest2).map (fun p => (.obj p.1, p.2))
      else if c = '[' then
        match skipWs rest with
        | ']' :: r => some (.arr [], r)
        | rest2 => (parseElems fuel rest2).map (fun p => (.arr p.1, p.2))
      else none

/-- Parse the non-empty member list of a JSON object, up to and including
the closing brace. -/
def parseMembers (fuel : Nat) (cs : List Char) : Option (List (String × JsonVal) × List Char) :=
  match fuel with
  | 0 => none
  | fuel + 1 =>
    match skipWs cs with
    | '"' :: r =>
      match parseStrChars r with
      | none => none
      | some (key, r2) =>
        match skipWs r2 with
        | ':' :: r3 =>
          match parseJsonVal fuel r3 with
          | none => none
          | some (v, r4) =>
            match skipWs r4 with
            | ',' :: r5 => (parseMembers fuel r5).map (fun p => ((String.mk key, v) :: p.1, p.2))
            | '}' :: r5 => some ([(String.mk key, v)], r5)
            | _ => none
        | _ => none
    | _ => none

/-- Parse the non-empty element list of a JSON array, up to and including
the closing bracket. -/
def parseElems (fuel : Nat) (cs : List Char) : Option (List JsonVal × List Char) :=
  match fuel with
  | 0 => none
  | fuel + 1 =>
    match parseJsonVal fuel cs with
    | none => none
    | some (v, r) =>
      match skipWs r with
      | ',' :: r2 => (parseElems fuel r2).map (fun p => (v :: p.1, p.2))
      | ']' :: r2 => some ([v], r2)
      | _ => none

end

/-- Modelled from the spec: json.loads — decode a whole string as one JSON
value, rejecting any trailing non-whitespace (Python raises "Extra data"
there). -/
def jsonDecode (s : String) : Option JsonVal :=
  match parseJsonVal (s.length + 1) s.toList with
  | some (v, rest) => if skipWs rest = [] then some v else none
  | none => none

/-! ### Specification-side notions for the merge policy -/

/-- The candidate that one page contributes for a field, if any: the
resolved (value, confidence) pair when the value passes the adoption
guard. -/
def erCand (er : ExtractionResults) (k : String) : Option (Option String × Int) :=
  let vc := resolveField er k
  if isAdoptable vc.1 then some vc else none

/-- All candidates for a field across the pages, in page order. -/
def candidates (pages : List ResultEnvelope) (k : String) : List (Option String × Int) :=
  pages.filterMap (fun p => erCand (p.extraction_results.getD emptyER) k)

/-- One step of the per-field adoption policy: adopt the candidate when
nothing is adopted yet or when it has strictly higher confidence. -/
def stepCand (st : Option (Option String × Int)) (cand : Option String × Int) :
    Option (Option String × Int) :=
  match st with
  | none => some cand
  | some best => if cand.2 > best.2 then some cand else some best

/-- The per-field adoption policy folded over a candidate list. -/
def adoptFold (l : List (Option String × Int)) : Option (Option String × Int) :=
  l.foldl stepCand none

/-- Recursive form of the earliest-maximum selection (used as a proof
bridge): the maximum-confidence candidate, with the earlier one kept on
ties. -/
def firstMaxRec : List (Option String × Int) → Option (Option String × Int)
  | [] => none
  | c :: cs =>
    match firstMaxRec cs with
    | none => some c
    | some m => if m.2 > c.2 then some m else some c

/-- The first candidate whose confidence dominates the confidence of every
candidate in the list: the specification reading of confidence-monotonic
merge with ties won by the earliest page. -/
def firstMax (l : List (Option String × Int)) : Option (Option String × Int) :=
  l.find? (fun cand => l.all (fun other => decide (other.2 ≤ cand.2)))

/-- Apply the adoption step to an optional candidate (a page with no
candidate for the field leaves the state unchanged). -/
def stepOpt (st : Option (Option String × Int)) :
    Option (Option String × Int) → Option (Option String × Int)
  | some c => stepCand st c
  | none => st

/-- The error message of a failed computation, if any. -/
def errMsg {α : Type} : Except String α → Option String
  | .error e => some e
  | .ok _ => none

/-! ### Concrete fixtures used by witnesses and counterexamples -/

/-- Page 1 of the three-page scenario: invoice_id read at confidence 40. -/
def pageA : ResultEnvelope :=
  { extraction_results := some { data := [("invoice_id", .scored (some "INV-001") (some 40))] } }

/-- Page 2 of the three-page scenario: invoice_id read at confidence 90. -/
def pageB : ResultEnvelope :=
  { extraction_results := some { data := [("invoice_id", .scored (some "INV-002") (some 90))] } }

/-- Page 3 of the three-page scenario: invoice_id empty at confidence 95. -/
def pageC : ResultEnvelope :=
  { extraction_results := some { data := [("invoice_id", .scored (some "") (some 95))] } }

/-- A page reporting the uppercase string NULL at confidence 90. -/
def pageNull : ResultEnvelope :=
  { extraction_results := some { data := [("f", .scored (some "NULL") (some 90))] } }

/-- A page reporting an ordinary value at confidence 50. -/
def pageAbc : ResultEnvelope :=
  { extraction_results := some { data := [("f", .scored (some "abc") (some 50))] } }

/-- A single page whose only field value is the lowercase string null. -/
def pageLowerNull : ResultEnvelope :=
  { extraction_results := some { data := [("f", .scored (some "null") (some 80))] } }

/-- A single page with an ordinary extracted value. -/
def pageVal : ResultEnvelope :=
  { extraction_results := some { data := [("f", .scored (some "value1") (some 70))] } }

/-- A decoded response that carries a model-asserted overall_confidence of 7
while its only field was read at confidence 90. -/
def erModelAsserted : ExtractionResults :=
  { overall_confidence := some 7, data := [("f", .scored (some "x") (some 90))] }

/-- A decoded response whose data object is empty (every schema field
omitted) and with no model-asserted overall confidence. -/
def erOmitted : ExtractionResults :=
  { overall_confidence := none, data := [] }

/-- A model-call boundary that always raises. -/
def callFail : String → Except String String := fun _ => .error "boom"

/-- A json.loads boundary on which every decode fails. -/
def decNone : String → Option ResultEnvelope := fun _ => none

/-- A model-call boundary that answers only for the page image pg1 and
times out on every other page. -/
def callPartial : String → Except String String :=
  fun s => if s = "pg1" then .ok "resp1" else .error "timeout"

/-- A json.loads boundary that decodes only the raw text resp1. -/
def decOne : String → Option ResultEnvelope :=
  fun s =>
    if s = "resp1" then
      some { extraction_results := some { data := [("f", .scored (some "v") (some 80))] } }
    else none

/-! ### Dictionary lemmas -/

theorem dget_dinsert {α : Type} (d : Dict α) (k k' : String) (v : α) :
    dget (dinsert d k v) k' = if k = k' then some v else dget d k' := by
  induction d with
  | nil => simp [dinsert, dget]
  | cons hd tl ih =>
    obtain ⟨k0, v0⟩ := hd
    by_cases h0 : k0 = k
    · subst h0
      by_cases h1 : k0 = k'
      · subst h1
        simp [dinsert, dget]
      · simp [dinsert, dget, h1]
    · by_cases h1 : k0 = k'
      · subst h1
        have : k ≠ k0 := fun h => h0 h.symm
        simp [dinsert, dget, h0, this]
      · simp [dinsert, dget, h0, h1, ih]

theorem dget_dinsert_self {α : Type} (d : Dict α) (k : String) (v : α) :
    dget (dinsert d k v) k = some v := by
  simp [dget_dinsert]

theorem dget_dinsert_ne {α : Type} (d : Dict α) {k k' : String} (h : k ≠ k') (v : α) :
    dget (dinsert d k v) k' = dget d k' := by
  simp [dget_dinsert, h]

/-! ### Merge loop: fields outside the schema are never touched, and the
final fill step makes the data mapping total on the schema (claim C1). -/

theorem mergeField_merged_data_ne (er : ExtractionResults) (acc : MergeAcc) {f k : String}
    (h : f ≠ k) : dget (mergeField er acc f).merged_data k = dget acc.merged_data k := by
  unfold mergeField
  dsimp only
  split
  · split
    · simp [dget_dinsert_ne _ h]
    · rfl
  · rfl

theorem mergeField_field_confidences_ne (er : ExtractionResults) (acc : MergeAcc) {f k : String}
    (h : f ≠ k) :
    dget (mergeField er acc f).field_confidences k = dget acc.field_confidences k := by
  unfold mergeField
  dsimp only
  split
  · split
    · simp [dget_dinsert_ne _ h]
    · rfl
  · rfl

theorem fields_foldl_merged_data_notmem (er : ExtractionResults) (fields : List String)
    (k : String) (hk : k ∉ fields) (acc : MergeAcc) :
    dget (fields.foldl (mergeField er) acc).merged_data k = dget acc.merged_data k := by
  induction fields generalizing acc with
  | nil => rfl
  | cons f rest ih =>
    have hfk : f ≠ k := fun h => hk (h ▸ List.mem_cons_self f rest)
    have hkrest : k ∉ rest := fun h => hk (List.mem_cons_of_mem f h)
    simp only [List.foldl_cons]
    rw [ih hkrest, mergeField_merged_data_ne er acc hfk]

theorem mergePage_merged_data_notmem (schema : List String) (acc : MergeAcc)
    (page : ResultEnvelope) (k : String) (hk : k ∉ schema) :
    dget (mergePage schema acc page).merged_data k = dget acc.merged_data k := by
  unfold mergePage
  dsimp only
  rw [fields_foldl_merged_data_notmem _ _ _ hk]
  split <;> rfl

theorem mergeLoop_merged_data_notmem (pages : List ResultEnvelope) (schema : List String)
    (k : String) (hk : k ∉ schema) :
    dget (mergeLoop pages schema).merged_data k = none := by
  have main : ∀ (ps : List ResultEnvelope) (acc : MergeAcc),
      dget acc.merged_data k = none →
      dget (ps.foldl (mergePage schema) acc).merged_data k = none := by
    intro ps
    induction ps with
    | nil => intro acc h; exact h
    | cons p rest ih =>
      intro acc h
      simp only [List.foldl_cons]
      exact ih _ ((mergePage_merged_data_notmem schema acc p k hk).trans h)
  exact main pages {} rfl

theorem fillMissing_notmem (schema : List String) (d : Dict (Option String)) (k : String)
    (hk : k ∉ schema) : dget (fillMissing schema d) k = dget d k := by
  induction schema generalizing d with
  | nil => rfl
  | cons f rest ih =>
    have hfk : f ≠ k := fun h => hk (h ▸ List.mem_cons_self f rest)
    have hkrest : k ∉ rest := fun h => hk (List.mem_cons_of_mem f h)
    simp only [fillMissing, List.foldl_cons]
    rw [show (rest.foldl (fun d k => if dmem k d then d else dinsert d k none)
        (if dmem f d then d else dinsert d f none)) =
        fillMissing rest (if dmem f d then d else dinsert d f none) from rfl,
      ih _ hkrest]
    split
    · rfl
    · exact dget_dinsert_ne d hfk none

theorem fillMissing_preserves_some (schema : List String) (d : Dict (Option String))
    (k : String) (x : Option String) (h : dget d k = some x) :
    dget (fillMissing schema d) k = some x := by
  induction schema generalizing d with
  | nil => exact h
  | cons f rest ih =>
    simp only [fillMissing, List.foldl_cons]
    rw [show (rest.foldl (fun d k => if dmem k d then d else dinsert d k none)
        (if dmem f d then d else dinsert d f none)) =
        fillMissing rest (if dmem f d then d else dinsert d f none) from rfl]
    apply ih
    by_cases hfk : f = k
    · subst hfk
      have : dmem f d = true := by simp [dmem, h]
      simp [this, h]
    · split
      · exact h
      · rw [dget_dinsert_ne d hfk none]; exact h

theorem fillMissing_fills (schema : List String) (d : Dict (Option String)) (k : String)
    (hk : k ∈ schema) (hd : dget d k = none) :
    dget (fillMissing schema d) k = some none := by
  induction schema generalizing d with
  | nil => cases hk
  | cons f rest ih =>
    simp only [fillMissing, List.foldl_cons]
    rw [show (rest.foldl (fun d k => if dmem k d then d else dinsert d k none)
        (if dmem f d then d else dinsert d f none)) =
        fillMissing rest (if dmem f d then d else dinsert d f none) from rfl]
    by_cases hfk : f = k
    · subst hfk
      have : dmem f d = false := by simp [dmem, hd]
      apply fillMissing_preserves_some
      simp [this, dget_dinsert_self]
    · have hkrest : k ∈ rest := by
        cases hk with
        | head => exact absurd rfl hfk
        | tail _ h => exact h
      apply ih _ hkrest
      split
      · exact hd
      · rw [dget_dinsert_ne d hfk none]; exact hd

/-- C1.  For every FieldSchema and every sequence of PageExtractions, the
merged output data mapping contains exactly the keys of the schema: every
schema field is present (with an adopted value or explicit null) and no
key outside the schema appears. -/
theorem merged_keys_exactly_schema (pages : List ResultEnvelope) (schema : List String)
    (k : String) : (dget (mergedData pages schema) k).isSome ↔ k ∈ schema := by
  constructor
  · intro h
    by_contra hk
    rw [mergedData, fillMissing_notmem schema _ k hk,
      mergeLoop_merged_data_notmem pages schema k hk] at h
    cases h
  · intro hk
    rw [mergedData]
    rcases hcur : dget (mergeLoop pages schema).merged_data k with _ | x
    · rw [fillMissing_fills schema _ k hk hcur]; rfl
    · rw [fillMissing_preserves_some schema _ k x hcur]; rfl

/-! ### Per-field characterization of the merge loop (claims C2, C9) -/

theorem fields_foldl_field_confidences_notmem (er : ExtractionResults) (fields : List String)
    (k : String) (hk : k ∉ fields) (acc : MergeAcc) :
    dget (fields.foldl (mergeField er) acc).field_confidences k = dget acc.field_confidences k := by
  induction fields generalizing acc with
  | nil => rfl
  | cons f rest ih =>
    have hfk : f ≠ k := fun h => hk (h ▸ List.mem_cons_self f rest)
    have hkrest : k ∉ rest := fun h => hk (List.mem_cons_of_mem f h)
    simp only [List.foldl_cons]
    rw [ih hkrest, mergeField_field_confidences_ne er acc hfk]

theorem mergeField_self (er : ExtractionResults) (acc : MergeAcc) (k : String)
    (st : Option (Option String × Int))
    (hmd : dget acc.merged_data k = st.map Prod.fst)
    (hfc : dget acc.field_confidences k = st.map Prod.snd) :
    dget (mergeField er acc k).merged_data k = (stepOpt st (erCand er k)).map Prod.fst
    ∧ dget (mergeField er acc k).field_confidences k = (stepOpt st (erCand er k)).map Prod.snd := by
  unfold mergeField erCand
  dsimp only
  by_cases had : isAdoptable (resolveField er k).1
  · rw [if_pos had, if_pos had]
    cases st with
    | none =>
      have hmem : dmem k acc.merged_data = false := by
        simp [dmem, hmd]
      rw [hmem]
      simp [stepOpt, stepCand, dget_dinsert_self]
    | some best =>
      obtain ⟨v0, c0⟩ := best
      have hmem : dmem k acc.merged_data = true := by
        simp [dmem, hmd]
      rw [hmem]
      have hfc' : dget acc.field_confidences k = some c0 := hfc
      rw [hfc']
      simp only [Bool.not_true, Bool.false_or, Option.getD_some]
      by_cases hgt : (resolveField er k).2 > c0
      · simp [hgt, stepOpt, stepCand, dget_dinsert_self]
      · simp [hgt, stepOpt, stepCand, hmd, hfc]
  · rw [if_neg had, if_neg had]
    exact ⟨by simp [stepOpt, hmd], by simp [stepOpt, hfc]⟩

theorem mergePage_field_char (schema : List String) (k : String) (hk : k ∈ schema)
    (hnd : schema.Nodup) (acc : MergeAcc) (page : ResultEnvelope)
    (st : Option (Option String × Int))
    (hmd : dget acc.merged_data k = st.map Prod.fst)
    (hfc : dget acc.field_confidences k = st.map Prod.snd) :
    dget (mergePage schema acc page).merged_data k
      = (stepOpt st (erCand (page.extraction_results.getD emptyER) k)).map Prod.fst
    ∧ dget (mergePage schema acc page).field_confidences k
      = (stepOpt st (erCand (page.extraction_results.getD emptyER) k)).map Prod.snd := by
  obtain ⟨l1, l2, rfl⟩ := List.append_of_mem hk
  have hnot1 : k ∉ l1 := by
    rcases List.nodup_append.mp hnd with ⟨-, -, hdisj⟩
    intro hmem
    exact hdisj hmem (List.mem_cons_self k l2)
  have hnot2 : k ∉ l2 := by
    rcases List.nodup_append.mp hnd with ⟨-, hnd2, -⟩
    exact (List.nodup_cons.mp hnd2).1
  unfold mergePage
  dsimp only
  set er := page.extraction_results.getD emptyER with her
  set acc1 := if er.reasoning ≠ "" then
      { acc with all_reasonings := acc.all_reasonings ++ [er.reasoning] }
    else acc with hacc1
  have hmd1 : dget acc1.merged_data k = st.map Prod.fst := by
    rw [hacc1]; split <;> simpa using hmd
  have hfc1 : dget acc1.field_confidences k = st.map Prod.snd := by
    rw [hacc1]; split <;> simpa using hfc
  rw [List.foldl_append, List.foldl_cons]
  have hmd2 : dget (l1.foldl (mergeField er) acc1).merged_data k = st.map Prod.fst := by
    rw [fields_foldl_merged_data_notmem er l1 k hnot1 acc1]; exact hmd1
  have hfc2 : dget (l1.foldl (mergeField er) acc1).field_confidences k = st.map Prod.snd := by
    rw [fields_foldl_field_confidences_notmem er l1 k hnot1 acc1]; exact hfc1
  obtain ⟨hstep1, hstep2⟩ := mergeField_self er (l1.foldl (mergeField er) acc1) k st hmd2 hfc2
  constructor
  · rw [fields_foldl_merged_data_notmem er l2 k hnot2]; exact hstep1
  · rw [fields_foldl_field_confidences_notmem er l2 k hnot2]; exact hstep2

theorem mergeLoop_field_char (pages : List ResultEnvelope) (schema : List String)
    (k : String) (hk : k ∈ schema) (hnd : schema.Nodup) :
    dget (mergeLoop pages schema).merged_data k = (adoptFold (candidates pages k)).map Prod.fst
    ∧ dget (mergeLoop pages schema).field_confidences k
      = (adoptFold (candidates pages k)).map Prod.snd := by
  have main : ∀ (ps : List ResultEnvelope) (acc : MergeAcc) (st : Option (Option String × Int)),
      dget acc.merged_data k = st.map Prod.fst →
      dget acc.field_confidences k = st.map Prod.snd →
      dget ((ps.foldl (mergePage schema) acc)).merged_data k
        = (List.foldl stepCand st (candidates ps k)).map Prod.fst
      ∧ dget ((ps.foldl (mergePage schema) acc)).field_confidences k
        = (List.foldl stepCand st (candidates ps k)).map Prod.snd := by
    intro ps
    induction ps with
    | nil => intro acc st h1 h2; exact ⟨h1, h2⟩
    | cons p rest ih =>
      intro acc st h1 h2
      obtain ⟨h1', h2'⟩ := mergePage_field_char schema k hk hnd acc p st h1 h2
      simp only [List.foldl_cons, candidates, List.filterMap_cons]
      rcases hc : erCand (p.extraction_results.getD emptyER) k with _ | c
      · rw [hc] at h1' h2'
        simpa [candidates] using ih _ st h1' h2'
      · rw [hc] at h1' h2'
        simpa [candidates] using ih _ (stepCand st c) h1' h2'
  exact main pages {} none rfl rfl

/-! ### The adoption fold selects the earliest maximum-confidence candidate -/

theorem firstMaxRec_cons (c : Option String × Int) (cs : List (Option String × Int)) :
    firstMaxRec (c :: cs) =
      match firstMaxRec cs with
      | none => some c
      | some m => if m.2 > c.2 then some m else some c := rfl

theorem firstMaxRec_eq_none (l : List (Option String × Int)) (h : firstMaxRec l = none) :
    l = [] := by
  cases l with
  | nil => rfl
  | cons c cs =>
    rw [firstMaxRec_cons] at h
    cases hcs : firstMaxRec cs with
    | none =>
      rw [hcs] at h
      simp at h
    | some m =>
      rw [hcs] at h
      dsimp only at h
      split at h <;> simp at h

theorem firstMaxRec_mem (l : List (Option String × Int)) (m : Option String × Int)
    (h : firstMaxRec l = some m) : m ∈ l := by
  induction l generalizing m with
  | nil => simp [firstMaxRec] at h
  | cons c cs ih =>
    rw [firstMaxRec_cons] at h
    cases hcs : firstMaxRec cs with
    | none =>
      rw [hcs] at h
      dsimp only at h
      cases h
      exact List.mem_cons_self c cs
    | some m' =>
      rw [hcs] at h
      dsimp only at h
      split at h
      · cases h
        exact List.mem_cons_of_mem c (ih _ hcs)
      · cases h
        exact List.mem_cons_self c cs

theorem firstMaxRec_max (l : List (Option String × Int)) (m : Option String × Int)
    (h : firstMaxRec l = some m) : ∀ x ∈ l, x.2 ≤ m.2 := by
  induction l generalizing m with
  | nil => simp [firstMaxRec] at h
  | cons c cs ih =>
    rw [firstMaxRec_cons] at h
    intro x hx
    rcases List.mem_cons.mp hx with rfl | hx'
    · cases hcs : firstMaxRec cs with
      | none =>
        rw [hcs] at h
        dsimp only at h
        cases h
        exact le_refl _
      | some m' =>
        rw [hcs] at h
        dsimp only at h
        split at h
        · cases h
          omega
        · cases h
          exact le_refl _
    · cases hcs : firstMaxRec cs with
      | none =>
        rw [firstMaxRec_eq_none cs hcs] at hx'
        cases hx'
      | some m' =>
        have hle := ih m' hcs x hx'
        rw [hcs] at h
        dsimp only at h
        split at h
        · cases h
          omega
        · cases h
          omega

theorem adoptFold_from_some (l : List (Option String × Int)) (b : Option String × Int) :
    List.foldl stepCand (some b) l =
      match firstMaxRec l with
      | none => some b
      | some m => if m.2 > b.2 then some m else some b := by
  induction l generalizing b with
  | nil => rfl
  | cons c cs ih =>
    rw [List.foldl_cons, firstMaxRec_cons]
    have hstep : stepCand (some b) c = if c.2 > b.2 then some c else some b := rfl
    rw [hstep]
    cases hcs : firstMaxRec cs with
    | none =>
      obtain rfl := firstMaxRec_eq_none cs hcs
      dsimp only
      by_cases hc : c.2 > b.2
      · rw [if_pos hc]
        simp [hc]
      · rw [if_neg hc]
        simp [hc]
    | some m =>
      dsimp only
      by_cases hc : c.2 > b.2
      · rw [if_pos hc, ih c, hcs]
        dsimp only
        by_cases hm : m.2 > c.2
        · rw [if_pos hm]
          simp [show m.2 > b.2 by omega]
        · rw [if_neg hm]
          simp [hc]
      · rw [if_neg hc, ih b, hcs]
        dsimp only
        by_cases hm : m.2 > c.2
        · rw [if_pos hm]
        · rw [if_neg hm]
          simp [hc, show ¬ m.2 > b.2 by omega]

theorem adoptFold_eq_firstMaxRec (l : List (Option String × Int)) :
    adoptFold l = firstMaxRec l := by
  cases l with
  | nil => rfl
  | cons c cs =>
    unfold adoptFold
    rw [List.foldl_cons]
    have hstep : stepCand none c = some c := rfl
    rw [hstep, adoptFold_from_some cs c, firstMaxRec_cons]

theorem findCongrMem {α : Type} (l : List α) (p q : α → Bool) (h : ∀ x ∈ l, p x = q x) :
    l.find? p = l.find? q := by
  induction l with
  | nil => rfl
  | cons c cs ih =>
    have hc := h c (List.mem_cons_self c cs)
    by_cases hp : p c = true
    · rw [List.find?_cons_of_pos cs hp, List.find?_cons_of_pos cs (hc ▸ hp)]
    · rw [List.find?_cons_of_neg cs hp, List.find?_cons_of_neg cs (hc ▸ hp)]
      exact ih (fun x hx => h x (List.mem_cons_of_mem c hx))

theorem firstMaxRec_eq_firstMax (l : List (Option String × Int)) :
    firstMaxRec l = firstMax l := by
  induction l with
  | nil => rfl
  | cons c cs ih =>
    rw [firstMaxRec_cons]
    cases hcs : firstMaxRec cs with
    | none =>
      obtain rfl := firstMaxRec_eq_none cs hcs
      dsimp only
      unfold firstMax
      rw [List.find?_cons_of_pos [] (by simp)]
    | some m =>
      have hmem := firstMaxRec_mem cs m hcs
      have hmax := firstMaxRec_max cs m hcs
      dsimp only
      by_cases hm : m.2 > c.2
      · rw [if_pos hm]
        unfold firstMax
        have hpc : ¬ ((c :: cs).all (fun other => decide (other.2 ≤ c.2)) = true) := by
          simp only [List.all_eq_true]
          intro hall
          have := hall m (List.mem_cons_of_mem c hmem)
          simp at this
          omega
        rw [List.find?_cons_of_neg cs hpc]
        have hagree : ∀ x ∈ cs,
            ((c :: cs).all (fun other => decide (other.2 ≤ x.2)))
              = (cs.all (fun other => decide (other.2 ≤ x.2))) := by
          intro x hx
          by_cases hq : (cs.all (fun other => decide (other.2 ≤ x.2))) = true
          · have hx2 : m.2 ≤ x.2 := by
              simp only [List.all_eq_true] at hq
              have := hq m hmem
              simpa using this
            have hcx : c.2 ≤ x.2 := by omega
            simp only [List.all_cons, hq, Bool.and_true]
            simpa using hcx
          · simp only [Bool.not_eq_true] at hq
            simp [List.all_cons, hq]
        rw [findCongrMem cs _ _ hagree]
        rw [ih] at hcs
        rw [← hcs]
        rfl
      · rw [if_neg hm]
        unfold firstMax
        have hpc : ((c :: cs).all (fun other => decide (other.2 ≤ c.2))) = true := by
          simp only [List.all_eq_true]
          intro x hx
          rcases List.mem_cons.mp hx with rfl | hx'
          · simp
          · have := hmax x hx'
            simp only [decide_eq_true_eq]
            omega
        rw [List.find?_cons_of_pos cs hpc]

/-- C2.  For every schema field, the merge adopts exactly the earliest
candidate whose confidence dominates every other non-empty candidate for
that field across all pages: adopted value and adopted confidence both
equal the first maximum-confidence entry of the candidate list (so the
adopted confidence is greater or equal to every candidate confidence, and
ties go to the earliest page in sequence order). -/
theorem merge_adopts_first_max (pages : List ResultEnvelope) (schema : List String)
    (k : String) (hk : k ∈ schema) (hnd : schema.Nodup) :
    dget (mergeLoop pages schema).merged_data k = (firstMax (candidates pages k)).map Prod.fst
    ∧ dget (mergeLoop pages schema).field_confidences k
      = (firstMax (candidates pages k)).map Prod.snd := by
  obtain ⟨h1, h2⟩ := mergeLoop_field_char pages schema k hk hnd
  rw [adoptFold_eq_firstMaxRec, firstMaxRec_eq_firstMax] at h1 h2
  exact ⟨h1, h2⟩

/-! ### Only values passing the adoption guard are ever adopted (claim C3) -/

theorem mergeField_adoptable_inv (er : ExtractionResults) (acc : MergeAcc) (f : String)
    (h : ∀ k s, dget acc.merged_data k = some s → isAdoptable s = true) :
    ∀ k s, dget (mergeField er acc f).merged_data k = some s → isAdoptable s = true := by
  intro k s hs
  unfold mergeField at hs
  dsimp only at hs
  by_cases had : isAdoptable (resolveField er f).1
  · rw [if_pos had] at hs
    split at hs
    · dsimp only at hs
      rw [dget_dinsert] at hs
      by_cases hfk : f = k
      · rw [if_pos hfk] at hs
        cases hs
        exact had
      · rw [if_neg hfk] at hs
        exact h k s hs
    · exact h k s hs
  · rw [if_neg had] at hs
    exact h k s hs

theorem mergeLoop_adoptable (pages : List ResultEnvelope) (schema : List String)
    (k : String) (s : Option String)
    (h : dget (mergeLoop pages schema).merged_data k = some s) : isAdoptable s = true := by
  have inv : ∀ (ps : List ResultEnvelope) (acc : MergeAcc),
      (∀ k' s', dget acc.merged_data k' = some s' → isAdoptable s' = true) →
      ∀ k' s', dget (ps.foldl (mergePage schema) acc).merged_data k' = some s' →
        isAdoptable s' = true := by
    intro ps
    induction ps with
    | nil => intro acc hacc; exact hacc
    | cons p rest ih =>
      intro acc hacc
      simp only [List.foldl_cons]
      apply ih
      unfold mergePage
      dsimp only
      have hfields : ∀ (fields : List String) (acc' : MergeAcc),
          (∀ k' s', dget acc'.merged_data k' = some s' → isAdoptable s' = true) →
          ∀ k' s', dget (fields.foldl (mergeField (p.extraction_results.getD emptyER)) acc').merged_data k'
            = some s' → isAdoptable s' = true := by
        intro fields
        induction fields with
        | nil => intro acc' hacc'; exact hacc'
        | cons f frest ihf =>
          intro acc' hacc'
          simp only [List.foldl_cons]
          exact ihf _ (mergeField_adoptable_inv _ acc' f hacc')
      apply hfields
      split
      · exact hacc
      · exact hacc
  exact inv pages {} (fun k' s' h' => by simp [dget] at h') k s h

/-- C3 (amended).  A value that fails the adoption guard — empty, exactly
the lowercase string null, or case-insensitively equal to none or
not found — is never adopted for any field under any circumstances; but
the null comparison is case-sensitive, so case variants such as NULL are
ordinary candidates (the unamended claim fails on them, see the
counterexample). -/
theorem adopted_values_pass_emptiness_filter (pages : List ResultEnvelope)
    (schema : List String) (k : String) (s : Option String)
    (h : dget (mergeLoop pages schema).merged_data k = some s) :
    isAdoptable s = true :=
  mergeLoop_adoptable pages schema k s h

/-- Witness for C3 (amended): in a concrete merge the value adopted for
field f indeed passes the adoption guard. -/
theorem adopted_values_pass_emptiness_filter_witness :
    dget (mergeLoop [pageNull, pageAbc] ["f"]).merged_data "f" = some (some "NULL")
    ∧ isAdoptable (some "NULL") = true :=
  ⟨by decide,
   adopted_values_pass_emptiness_filter [pageNull, pageAbc] ["f"] "f" (some "NULL") (by decide)⟩

/-- Counterexample to C3 as stated: the value NULL is case-insensitively
equal to null, a non-empty candidate (abc) exists for the field on another
page, and yet NULL is adopted (the Python guard compares against null
case-sensitively). -/
theorem case_insensitive_null_adopted_cex :
    candidates [pageNull, pageAbc] "f" = [(some "NULL", 90), (some "abc", 50)]
    ∧ pyLower "NULL" = "null"
    ∧ dget (mergedData [pageNull, pageAbc] ["f"]) "f" = some (some "NULL") := by
  refine ⟨by decide, by decide, by decide⟩

/-! ### Single-page merge (claim C9) -/

theorem candidates_single (p : ResultEnvelope) (k : String) :
    candidates [p] k =
      match erCand (p.extraction_results.getD emptyER) k with
      | some c => [c]
      | none => [] := by
  unfold candidates
  cases hc : erCand (p.extraction_results.getD emptyER) k with
  | none => simp [List.filterMap_cons, hc]
  | some c => simp [List.filterMap_cons, hc]

/-- C9 (amended).  Merging a single page is pointwise identity on every
schema field whose value passes the adoption guard (same value, same
confidence); a field whose value fails the guard (null, empty, or a
null-like marker) is replaced by an explicit null with no adopted
confidence — so the unamended pointwise-identity claim fails exactly on
such fields, see the counterexample. -/
theorem single_page_merge_identity_on_nonempty (p : ResultEnvelope) (schema : List String)
    (k : String) (hk : k ∈ schema) (hnd : schema.Nodup) :
    dget (mergedData [p] schema) k
      = some (if isAdoptable (resolveField (p.extraction_results.getD emptyER) k).1
              then (resolveField (p.extraction_results.getD emptyER) k).1 else none)
    ∧ dget (mergeLoop [p] schema).field_confidences k
      = (if isAdoptable (resolveField (p.extraction_results.getD emptyER) k).1
         then some (resolveField (p.extraction_results.getD emptyER) k).2 else none) := by
  obtain ⟨h1, h2⟩ := mergeLoop_field_char [p] schema k hk hnd
  rw [candidates_single] at h1 h2
  by_cases had : isAdoptable (resolveField (p.extraction_results.getD emptyER) k).1
  · have hc : erCand (p.extraction_results.getD emptyER) k
        = some (resolveField (p.extraction_results.getD emptyER) k) := by
      unfold erCand
      rw [if_pos had]
    rw [hc] at h1 h2
    dsimp only [adoptFold, List.foldl_cons, List.foldl_nil, stepCand] at h1 h2
    constructor
    · rw [if_pos had]
      exact fillMissing_preserves_some schema _ k _ h1
    · rw [if_pos had]
      exact h2
  · have hc : erCand (p.extraction_results.getD emptyER) k = none := by
      unfold erCand
      rw [if_neg had]
    rw [hc] at h1 h2
    dsimp only [adoptFold, List.foldl_nil] at h1 h2
    constructor
    · rw [if_neg had]
      exact fillMissing_fills schema _ k hk h1
    · rw [if_neg had]
      exact h2

/-- Witness for C9 (amended): a concrete single page with a non-empty
value merges to exactly that value and confidence. -/
theorem single_page_merge_identity_on_nonempty_witness :
    ("f" ∈ ["f"]) ∧ (["f"] : List String).Nodup
    ∧ (dget (mergedData [pageVal] ["f"]) "f"
        = some (if isAdoptable (resolveField (pageVal.extraction_results.getD emptyER) "f").1
                then (resolveField (pageVal.extraction_results.getD emptyER) "f").1 else none)
      ∧ dget (mergeLoop [pageVal] ["f"]).field_confidences "f"
        = (if isAdoptable (resolveField (pageVal.extraction_results.getD emptyER) "f").1
           then some (resolveField (pageVal.extraction_results.getD emptyER) "f").2 else none))
    ∧ dget (mergedData [pageVal] ["f"]) "f" = some (some "value1")
    ∧ dget (mergeLoop [pageVal] ["f"]).field_confidences "f" = some 70 :=
  ⟨by decide, by decide,
   single_page_merge_identity_on_nonempty pageVal ["f"] "f" (by decide) (by decide),
   by decide, by decide⟩

/-- Counterexample to C9 as stated: a single page whose only field value is
the string null resolves to value null with confidence 80, but the merged
output maps the field to an explicit null with no adopted confidence — not
pointwise equal to the page data. -/
theorem single_page_merge_not_pointwise_cex :
    resolveField (pageLowerNull.extraction_results.getD emptyER) "f" = (some "null", 80)
    ∧ dget (mergedData [pageLowerNull] ["f"]) "f" = some none
    ∧ dget (mergeLoop [pageLowerNull] ["f"]).field_confidences "f" = none
    ∧ (some (none : Option String)) ≠ some (some "null") := by
  refine ⟨by decide, by decide, by decide, by decide⟩

/-! ### The additional request answer comes from the first page (claim C10) -/

/-- C10.  For every non-empty page sequence, the merged
additional_request_result is exactly the first page's
additional_request_result — later pages never contribute, regardless of
confidence (the tail is universally quantified and absent from the right
hand side). -/
theorem additional_request_from_first_page (p : ResultEnvelope)
    (rest : List ResultEnvelope) (schema : List String) :
    (merge_page_results (p :: rest) schema).additional_request_result
      = (p.extraction_results.getD emptyER).additional_request_result := rfl

/-- Witness for C2: the three-page scenario (confidences 40, 90, and an
empty value at 95) adopts page 2, value INV-002 at confidence 90. -/
theorem merge_adopts_first_max_witness :
    ("invoice_id" ∈ ["invoice_id"]) ∧ (["invoice_id"] : List String).Nodup
    ∧ (dget (mergeLoop [pageA, pageB, pageC] ["invoice_id"]).merged_data "invoice_id"
        = (firstMax (candidates [pageA, pageB, pageC] "invoice_id")).map Prod.fst
      ∧ dget (mergeLoop [pageA, pageB, pageC] ["invoice_id"]).field_confidences "invoice_id"
        = (firstMax (candidates [pageA, pageB, pageC] "invoice_id")).map Prod.snd)
    ∧ dget (mergedData [pageA, pageB, pageC] ["invoice_id"]) "invoice_id" = some (some "INV-002")
    ∧ dget (mergeLoop [pageA, pageB, pageC] ["invoice_id"]).field_confidences "invoice_id"
        = some 90 :=
  ⟨by decide, by decide,
   merge_adopts_first_max [pageA, pageB, pageC] ["invoice_id"] "invoice_id"
     (by decide) (by decide),
   by decide, by decide⟩

/-! ### Aggregate confidence and omitted fields in the parser
(claims C4, C5) -/

theorem dget_map_self {α : Type} (schema : List String) (f : String → α) (k : String)
    (hk : k ∈ schema) : dget (schema.map (fun x => (x, f x))) k = some (f k) := by
  induction schema with
  | nil => cases hk
  | cons s rest ih =>
    by_cases hsk : s = k
    · subst hsk
      simp [dget]
    · have hkrest : k ∈ rest := by
        rcases List.mem_cons.mp hk with rfl | h
        · exact absurd rfl hsk
        · exact h
      simp only [List.map_cons, dget, hsk, if_false]
      exact ih hkrest

/-- C4 (amended).  The aggregate confidence of a parsed extraction result
equals the model-asserted overall_confidence whenever the response carries
one; only when the response omits it does it equal the truncated
arithmetic mean of the resolved per-field confidences (0 for an empty
schema) — so the aggregate is not independent of the model-reported value,
see the counterexample. -/
theorem aggregate_confidence_characterization (er : ExtractionResults) (schema : List String) :
    (postprocess er schema).confidence_score
      = er.overall_confidence.getD
          (if schema = [] then 0
           else pyIntDiv (resolvedFieldConfidences er.data schema).sum schema.length) := by
  by_cases hs : schema = []
  · subst hs
    rfl
  · have h1 : resolvedFieldConfidences er.data schema ≠ [] := by
      simp [resolvedFieldConfidences, hs]
    unfold postprocess
    dsimp only
    rw [if_neg h1, if_neg hs]
    have hlen : (resolvedFieldConfidences er.data schema).length = schema.length := by
      simp [resolvedFieldConfidences]
    rw [hlen]

/-- Counterexample to C4 as stated: a response carrying a model-asserted
overall_confidence of 7 whose only field confidence is 90 keeps the
model-asserted 7 as the aggregate, instead of the field mean 90. -/
theorem aggregate_confidence_model_asserted_cex :
    erModelAsserted.overall_confidence = some 7
    ∧ resolvedFieldConfidences erModelAsserted.data ["f"] = [90]
    ∧ (postprocess erModelAsserted ["f"]).confidence_score = 7
    ∧ (7 : Int) ≠ 90 := by
  refine ⟨by decide, by decide, by decide, by decide⟩

/-- C5 (amended).  A schema field that the model response omits entirely is
still represented in the processed output, with value null — but its
resolved confidence is the legacy-default 50, not 0 (see the
counterexample), so an omitted field contributes 50 to the aggregate. -/
theorem omitted_field_null_with_default_fifty (er : ExtractionResults) (schema : List String)
    (k : String) (hk : k ∈ schema) (hmiss : dget er.data k = none) :
    dget (postprocess er schema).data k = some (FieldData.legacy none)
    ∧ (processField er.data k).2 = 50 := by
  constructor
  · unfold postprocess
    dsimp only
    rw [dget_map_self schema (fun x => FieldData.legacy (processField er.data x).1) k hk]
    simp [processField, hmiss]
  · simp [processField, hmiss]

/-- Witness for C5 (amended): with an empty data object the field f is
mapped to an explicit null and resolved confidence 50. -/
theorem omitted_field_null_with_default_fifty_witness :
    ("f" ∈ ["f"]) ∧ dget erOmitted.data "f" = none
    ∧ (dget (postprocess erOmitted ["f"]).data "f" = some (FieldData.legacy none)
       ∧ (processField erOmitted.data "f").2 = 50) :=
  ⟨by decide, by decide,
   omitted_field_null_with_default_fifty erOmitted ["f"] "f" (by decide) (by decide)⟩

/-- Counterexample to C5 as stated: a wholly omitted field yields resolved
confidence 50 (not 0), and with a single-field schema the aggregate
becomes 50 rather than 0. -/
theorem omitted_field_confidence_fifty_cex :
    dget erOmitted.data "f" = none
    ∧ (processField erOmitted.data "f").2 = 50
    ∧ (postprocess erOmitted ["f"]).confidence_score = 50
    ∧ (50 : Int) ≠ 0 := by
  refine ⟨by decide, by decide, by decide, by decide⟩

/-! ### Orchestrator error handling (claims C6, C7) -/

theorem tryBody_pdf_multi (call : String → Except String String)
    (dec : String → Option ResultEnvelope) (a b : String) (rest : List String)
    (schema : List String) :
    tryBody call dec (.pdf (a :: b :: rest)) schema =
      if collectPageExtractions call dec (a :: b :: rest) = [] then
        Except.error "Failed to process any page of the document"
      else
        Except.ok (postprocess
          (merge_page_results (collectPageExtractions call dec (a :: b :: rest)) schema)
          schema) := by
  unfold tryBody
  by_cases hcol : collectPageExtractions call dec (a :: b :: rest) = []
  · simp [hcol, Except.map]
  · simp [hcol, Except.map]

/-- C6 (amended).  In the multi-page flow every page whose call or decode
fails is dropped: whenever at least one page survives, the request
succeeds (no error key) and the result is the post-processed merge of
exactly the surviving pages; when every page fails, the result carries the
fatal aggregating error message in its error field — but, the top-level
handler having converted the raised aggregating exception, the degraded
all-null record accompanies that error in the same result object rather
than being absent (see the counterexample). -/
theorem multipage_partial_failure_tolerance (call : String → Except String String)
    (dec : String → Option ResultEnvelope) (a b : String) (rest : List String)
    (schema : List String) (hs : schema ≠ []) :
    (collectPageExtractions call dec (a :: b :: rest) ≠ [] →
      extract_structured_data_with_ollama call dec (.pdf (a :: b :: rest)) schema
        = { error := none,
            extraction_results := some (postprocess
              (merge_page_results (collectPageExtractions call dec (a :: b :: rest)) schema)
              schema) })
    ∧ (collectPageExtractions call dec (a :: b :: rest) = [] →
      extract_structured_data_with_ollama call dec (.pdf (a :: b :: rest)) schema
        = { error := some "Error calling Ollama: Failed to process any page of the document",
            extraction_results := some
              (degradedER schema "Failed to process any page of the document") }) := by
  constructor
  · intro hne
    unfold extract_structured_data_with_ollama
    rw [if_neg hs, tryBody_pdf_multi, if_neg hne]
  · intro heq
    unfold extract_structured_data_with_ollama
    rw [if_neg hs, tryBody_pdf_multi, if_pos heq]
    rfl

/-- Witness for C6 (amended): a two-page document where page pg2 times out
— the request succeeds using page pg1 alone. -/
theorem multipage_partial_failure_tolerance_witness :
    ((["f"] : List String) ≠ [])
    ∧ ((collectPageExtractions callPartial decOne ("pg1" :: "pg2" :: []) ≠ [] →
        extract_structured_data_with_ollama callPartial decOne (.pdf ("pg1" :: "pg2" :: [])) ["f"]
          = { error := none,
              extraction_results := some (postprocess
                (merge_page_results (collectPageExtractions callPartial decOne
                  ("pg1" :: "pg2" :: [])) ["f"]) ["f"]) })
      ∧ (collectPageExtractions callPartial decOne ("pg1" :: "pg2" :: []) = [] →
        extract_structured_data_with_ollama callPartial decOne (.pdf ("pg1" :: "pg2" :: [])) ["f"]
          = { error := some "Error calling Ollama: Failed to process any page of the document",
              extraction_results := some
                (degradedER ["f"] "Failed to process any page of the document") }))
    ∧ (extract_structured_data_with_ollama callPartial decOne (.pdf ["pg1", "pg2"]) ["f"]).error
        = none
    ∧ collectPageExtractions callPartial decOne ["pg1", "pg2"]
        = [{ extraction_results := some { data := [("f", FieldData.scored (some "v") (some 80))] },
             bareData := [] }] :=
  ⟨by decide,
   multipage_partial_failure_tolerance callPartial decOne "pg1" "pg2" [] ["f"] (by decide),
   by decide, by decide⟩

/-- Counterexample to C6 as stated: when every page fails, the returned
object does carry the fatal aggregating error, but it also contains the
degraded all-null record — the error is not returned instead of a
degraded empty record. -/
theorem all_pages_fail_degraded_record_cex :
    (extract_structured_data_with_ollama callFail decNone (.pdf ["a", "b"]) ["f"]).error
      = some "Error calling Ollama: Failed to process any page of the document"
    ∧ (extract_structured_data_with_ollama callFail decNone (.pdf ["a", "b"]) ["f"]).extraction_results
      = some (degradedER ["f"] "Failed to process any page of the document")
    ∧ degradedER ["f"] "Failed to process any page of the document"
      = { overall_confidence := none,
          confidence_score := 0,
          reasoning := "Error: Failed to process any page of the document",
          data := [("f", FieldData.legacy none)],
          additional_request_result := none } := by
  refine ⟨by decide, by decide, by decide⟩

/-- C7.  Whenever the try body of the orchestrator raises (any exception
path after input validation), the exception is caught at the top level and
the orchestrator still returns a structurally valid result: the degraded
record with every schema field null, confidence 0, and the reasoning set
to the error message. -/
theorem top_level_exceptions_become_degraded_result (call : String → Except String String)
    (dec : String → Option ResultEnvelope) (doc : DocumentContent) (schema : List String)
    (e : String) (hs : schema ≠ []) (herr : tryBody call dec doc schema = .error e) :
    extract_structured_data_with_ollama call dec doc schema
      = { error := some ("Error calling Ollama: " ++ e),
          extraction_results := some (degradedER schema e) }
    ∧ (degradedER schema e).data = schema.map (fun k => (k, FieldData.legacy none))
    ∧ (degradedER schema e).confidence_score = 0
    ∧ (degradedER schema e).reasoning = "Error: " ++ e := by
  refine ⟨?_, rfl, rfl, rfl⟩
  unfold extract_structured_data_with_ollama
  rw [if_neg hs, herr]

/-- Witness for C7: a failing model call on a single image is converted
into the degraded all-null result. -/
theorem top_level_exceptions_become_degraded_result_witness :
    ((["f"] : List String) ≠ [])
    ∧ tryBody callFail decNone (.image "x") ["f"] = Except.error "boom"
    ∧ (extract_structured_data_with_ollama callFail decNone (.image "x") ["f"]
        = { error := some ("Error calling Ollama: " ++ "boom"),
            extraction_results := some (degradedER ["f"] "boom") }
      ∧ (degradedER ["f"] "boom").data = ["f"].map (fun k => (k, FieldData.legacy none))
      ∧ (degradedER ["f"] "boom").confidence_score = 0
      ∧ (degradedER ["f"] "boom").reasoning = "Error: " ++ "boom") :=
  ⟨by decide, rfl,
   top_level_exceptions_become_degraded_result callFail decNone (.image "x") ["f"] "boom"
     (by decide) rfl⟩

/-! ### The JSON parse fallback (claim C8) -/

/-- C8 (amended).  When the raw response is not directly decodable, the
parser retries exactly once, on the single substring spanning from the
first opening brace to the last closing brace; prose-wrapped output is
parsed successfully when that spanning substring decodes (not whenever
some valid brace-delimited substring exists — see the counterexample);
when the span also fails to decode, or no span exists, parsing fails with
an error carrying the first 200 characters of the raw text. -/
theorem parse_fallback_characterization {α : Type} (dec : String → Option α)
    (response : String) (hdirect : dec response = none) :
    parseResponse dec response =
      (match braceSpan response with
       | some sub =>
         (match dec sub with
          | some r => Except.ok r
          | none => Except.error ("Could not parse JSON response. Raw: " ++ response.take 200))
       | none => Except.error ("No JSON found in response. Raw: " ++ response.take 200)) := by
  unfold parseResponse
  rw [hdirect]

/-- Witness for C8 (amended): prose-wrapped JSON decodes through the
brace-span fallback. -/
theorem parse_fallback_characterization_witness :
    jsonDecode "x\x7b\x7d" = none
    ∧ parseResponse jsonDecode "x\x7b\x7d" =
        (match braceSpan "x\x7b\x7d" with
         | some sub =>
           (match jsonDecode sub with
            | some r => Except.ok r
            | none => Except.error ("Could not parse JSON response. Raw: "
                ++ "x\x7b\x7d".take 200))
         | none => Except.error ("No JSON found in response. Raw: " ++ "x\x7b\x7d".take 200))
    ∧ (parseResponse jsonDecode "x\x7b\x7d").isOk = true :=
  ⟨rfl, parse_fallback_characterization jsonDecode "x\x7b\x7d" rfl, rfl⟩

/-- Counterexample to C8 as stated: the response consisting of an opening
brace, a space, and an empty object contains the valid brace-delimited
JSON substring consisting of the empty object, yet parsing fails, because
the single retried span (first brace to last brace) is not valid JSON. -/
theorem brace_substring_retry_incomplete_cex :
    (jsonDecode "\x7b\x7d").isSome = true
    ∧ ("\x7b \x7b\x7d" = "\x7b " ++ "\x7b\x7d")
    ∧ (jsonDecode "\x7b \x7b\x7d").isNone = true
    ∧ braceSpan "\x7b \x7b\x7d" = some "\x7b \x7b\x7d"
    ∧ errMsg (parseResponse jsonDecode "\x7b \x7b\x7d")
        = some "Could not parse JSON response. Raw: \x7b \x7b\x7d" := by
  refine ⟨by decide, by decide, by decide, by decide, by decide⟩

end Extractor
